import Mathlib

/-
Verification development for the UTXO status cache / tracker / RPC client
triad of the OTORI-Vision-Frontend repository (src/program/src/bitcoin/).

The Rust source is shallowly embedded:
  * machine integers (u32, u64, usize) become Nat (no wrapping arithmetic
    occurs on them in the modelled code paths);
  * `SystemTime` becomes a Nat timestamp passed explicitly as `now`;
    `SystemTime::duration_since(..).unwrap()` becomes truncated Nat
    subtraction, which agrees with the source whenever the stored
    timestamp is ≤ `now` (otherwise the source panics; theorems that
    depend on elapsed time carry that hypothesis);
  * `HashMap` becomes an association list with in-place replacement on
    insert (`mapInsert`), mirroring `HashMap::insert` semantics; key
    iteration order is the list order;
  * async fns become pure functions; awaited RPC calls become explicit
    oracle arguments describing the remote's per-attempt responses;
  * `Result<T, E>` becomes `Except E T`.
-/

/-- UtxoStatus from src/program/src/bitcoin/utxo.rs. -/
inductive UtxoStatus where
  | Active
  | Pending
  | Spent
  | Invalid
deriving DecidableEq, Repr

/-- UtxoMeta from src/program/src/bitcoin/utxo.rs: txid hex string, output
index, amount in satoshis, script, confirmation count and optional block
info. -/
structure UtxoMeta where
  txid : String
  vout : Nat
  amount_sats : Nat
  script_pubkey : String
  confirmations : Nat
  block_height : Option Nat
  block_hash : Option String
deriving DecidableEq, Repr

/-- UtxoMeta::new from utxo.rs: zero confirmations, empty script, no block
info. -/
def UtxoMeta.new (txid : String) (vout : Nat) (amount_sats : Nat) : UtxoMeta :=
  { txid := txid, vout := vout, amount_sats := amount_sats,
    script_pubkey := "", confirmations := 0,
    block_height := none, block_hash := none }

/-- Value of one hex digit, lower or upper case, as accepted by the hex
crate's FromHex used in UtxoMeta::txid_to_bytes. -/
def hexDigitVal (c : Char) : Option Nat :=
  if 48 ≤ c.toNat ∧ c.toNat ≤ 57 then some (c.toNat - 48)
  else if 97 ≤ c.toNat ∧ c.toNat ≤ 102 then some (c.toNat - 87)
  else if 65 ≤ c.toNat ∧ c.toNat ≤ 70 then some (c.toNat - 55)
  else none

/-- Hex decoding of a character list, two digits per byte; fails on an odd
length or a non-hex character, as Vec::from_hex does. -/
def hexToBytes : List Char → Option (List Nat)
  | [] => some []
  | [_] => none
  | c1 :: c2 :: rest => do
      let hi ← hexDigitVal c1
      let lo ← hexDigitVal c2
      let tl ← hexToBytes rest
      pure ((hi * 16 + lo) :: tl)

/-- UtxoMeta::txid_to_bytes from utxo.rs: hex-decode the txid string and
require exactly 32 bytes, otherwise fail (InvalidArgument in the source). -/
def UtxoMeta.txid_to_bytes (u : UtxoMeta) : Option (List Nat) :=
  match hexToBytes u.txid.data with
  | some bs => if bs.length = 32 then some bs else none
  | none => none

/-- BitcoinRpcError from src/program/src/bitcoin/rpc.rs. -/
inductive BitcoinRpcError where
  | ConnectionFailed (msg : String)
  | InvalidResponse (msg : String)
  | TxNotFound (txid : String)
  | NetworkError (msg : String)
  | Timeout
  | AuthError
deriving DecidableEq, Repr

/-- MAX_RETRIES constant from rpc.rs line 13. -/
def MAX_RETRIES : Nat := 3

/-- RETRY_DELAY_MS constant from rpc.rs line 14. -/
def RETRY_DELAY_MS : Nat := 1000

/-- Observable outcome of BitcoinRpcClient::make_rpc_call: the returned
result, how many times execute_rpc_call ran, and the duration of every
sleep performed between attempts, in order. -/
structure RpcCallTrace (R : Type) where
  result : Except BitcoinRpcError R
  attempts : Nat
  sleeps_ms : List Nat
deriving Repr

/-- Retry loop body of make_rpc_call (rpc.rs lines 98-111).  `exec i` is the
outcome of execute_rpc_call on attempt number i (the source re-sends the
same envelope; the remote may answer differently each time).  The source's
`while retries < MAX_RETRIES` is driven here by `fuel`, which stands for
MAX_RETRIES - retries; the fuel-exhausted case is the loop-exit
NetworkError of line 111 (unreachable from make_rpc_call since
MAX_RETRIES > 0). -/
def rpc_retry_go {R : Type} (exec : Nat → Except BitcoinRpcError R) :
    Nat → Nat → RpcCallTrace R
  | _, 0 =>
    { result := Except.error (BitcoinRpcError.NetworkError "Max retries exceeded"),
      attempts := 0, sleeps_ms := [] }
  | retries, fuel + 1 =>
    match exec retries with
    | Except.ok v => { result := Except.ok v, attempts := 1, sleeps_ms := [] }
    | Except.error e =>
      if retries = MAX_RETRIES - 1 then
        { result := Except.error e, attempts := 1, sleeps_ms := [] }
      else
        let rest := rpc_retry_go exec (retries + 1) fuel
        { result := rest.result, attempts := rest.attempts + 1,
          sleeps_ms := RETRY_DELAY_MS :: rest.sleeps_ms }

/-- BitcoinRpcClient::make_rpc_call (rpc.rs lines 86-112): start the retry
loop with retries = 0 and the full budget. -/
def make_rpc_call {R : Type} (exec : Nat → Except BitcoinRpcError R) :
    RpcCallTrace R :=
  rpc_retry_go exec 0 MAX_RETRIES

/-- Decoded getrawtransaction payload as far as rpc.rs consumes it:
get_confirmations only uses the transaction's computed txid. -/
structure RawTransaction where
  computed_txid : String
deriving DecidableEq, Repr

/-- Per-attempt behaviour of the remote endpoint for the three JSON-RPC
methods BitcoinRpcClient::get_utxo_status depends on.  Each field maps the
request parameters and the attempt number to the outcome of
execute_rpc_call for that attempt. -/
structure RemoteRpc where
  getrawtransaction : String → Nat → Except BitcoinRpcError RawTransaction
  gettxconfirmations : String → Nat → Except BitcoinRpcError Nat
  gettxout : String → Nat → Nat → Except BitcoinRpcError Bool

/-- BitcoinRpcClient::get_transaction (rpc.rs lines 144-147): a single
make_rpc_call of getrawtransaction. -/
def rpc_get_transaction (r : RemoteRpc) (txid : String) :
    Except BitcoinRpcError RawTransaction :=
  (make_rpc_call (r.getrawtransaction txid)).result

/-- BitcoinRpcClient::get_confirmations (rpc.rs lines 174-179): fetch the
transaction, then ask for the confirmation count of its computed txid. -/
def rpc_get_confirmations (r : RemoteRpc) (txid : String) :
    Except BitcoinRpcError Nat :=
  match rpc_get_transaction r txid with
  | Except.error e => Except.error e
  | Except.ok tx => (make_rpc_call (r.gettxconfirmations tx.computed_txid)).result

/-- BitcoinRpcClient::get_utxo_status (rpc.rs lines 149-166): fetch the
transaction (propagating failure with ?), fetch confirmations, return
Pending at zero confirmations, otherwise consult gettxout and return
Spent or Active. -/
def rpc_get_utxo_status (r : RemoteRpc) (utxo : UtxoMeta) :
    Except BitcoinRpcError UtxoStatus :=
  match rpc_get_transaction r utxo.txid with
  | Except.error e => Except.error e
  | Except.ok _ =>
    match rpc_get_confirmations r utxo.txid with
    | Except.error e => Except.error e
    | Except.ok confirmations =>
      if confirmations = 0 then Except.ok UtxoStatus.Pending
      else
        match (make_rpc_call (r.gettxout utxo.txid utxo.vout)).result with
        | Except.error e => Except.error e
        | Except.ok utxo_exists =>
          if !utxo_exists then Except.ok UtxoStatus.Spent
          else Except.ok UtxoStatus.Active

/-- Association-list lookup, modelling HashMap::get. -/
def mapLookup {K V : Type} [DecidableEq K] : List (K × V) → K → Option V
  | [], _ => none
  | (k2, v) :: rest, k => if k2 = k then some v else mapLookup rest k

/-- Association-list insert, modelling HashMap::insert: replace the value
in place when the key is present, append otherwise. -/
def mapInsert {K V : Type} [DecidableEq K] : List (K × V) → K → V → List (K × V)
  | [], k, v => [(k, v)]
  | (k2, v2) :: rest, k, v =>
    if k2 = k then (k2, v) :: rest else (k2, v2) :: mapInsert rest k v

/-- Association-list removal, modelling HashMap::remove (drops every pair
with the key; the maps built by mapInsert never hold duplicates). -/
def mapRemove {K V : Type} [DecidableEq K] : List (K × V) → K → List (K × V)
  | [], _ => []
  | (k2, v2) :: rest, k =>
    if k2 = k then mapRemove rest k else (k2, v2) :: mapRemove rest k

/-- Key set of an association list holds no duplicates — the invariant
HashMap guarantees by construction. -/
def keysNoDup {K V : Type} (m : List (K × V)) : Prop :=
  (m.map (fun p => p.1)).Nodup

/-- MockTransaction from src/program/src/bitcoin/mock/mod.rs, as far as
MockBitcoinRpcClient::get_utxo_status consumes it. -/
structure MockTransaction where
  confirmations : Nat
  is_valid : Bool
deriving DecidableEq, Repr

/-- MockBitcoinNode state from mock/mod.rs: transactions by txid, and the
utxo set mapping (txid, vout) to an is_spent flag. -/
structure MockBitcoinNode where
  transactions : List (String × MockTransaction)
  utxo_set : List ((String × Nat) × Bool)

/-- MockBitcoinRpcClient::get_utxo_status (mock/mod.rs lines 118-142):
Invalid when the transaction is missing or invalid, Spent/Active/Pending
from the utxo set and confirmation count, Invalid when the output is not
in the utxo set. -/
def mock_get_utxo_status (node : MockBitcoinNode) (utxo : UtxoMeta) :
    Except BitcoinRpcError UtxoStatus :=
  match mapLookup node.transactions utxo.txid with
  | some tx =>
    if !tx.is_valid then Except.ok UtxoStatus.Invalid
    else
      match mapLookup node.utxo_set (utxo.txid, utxo.vout) with
      | some true => Except.ok UtxoStatus.Spent
      | some false =>
        if tx.confirmations = 0 then Except.ok UtxoStatus.Pending
        else Except.ok UtxoStatus.Active
      | none => Except.ok UtxoStatus.Invalid
  | none => Except.ok UtxoStatus.Invalid

/-- UtxoCacheConfig from src/program/src/bitcoin/cache.rs: capacity,
refresh interval and invalid-entry TTL (durations in abstract time
units). -/
structure UtxoCacheConfig where
  max_size : Nat
  refresh_interval : Nat
  invalid_ttl : Nat
deriving DecidableEq, Repr

/-- Default UtxoCacheConfig (cache.rs lines 18-26), time in seconds. -/
def UtxoCacheConfig.default : UtxoCacheConfig :=
  { max_size := 1000, refresh_interval := 60, invalid_ttl := 3600 }

/-- CacheEntry from cache.rs lines 29-35. -/
structure CacheEntry where
  utxo : UtxoMeta
  status : UtxoStatus
  last_updated : Nat
  last_accessed : Nat
deriving DecidableEq, Repr

/-- CacheEntry::new (cache.rs lines 38-45): both timestamps set to now. -/
def CacheEntry.new (utxo : UtxoMeta) (status : UtxoStatus) (now : Nat) :
    CacheEntry :=
  { utxo := utxo, status := status, last_updated := now, last_accessed := now }

/-- CacheEntry::needs_refresh (cache.rs lines 47-57): Active/Pending
entries refresh after refresh_interval, Invalid/Spent after invalid_ttl,
measured from last_updated. -/
def CacheEntry.needs_refresh (e : CacheEntry) (config : UtxoCacheConfig)
    (now : Nat) : Bool :=
  match e.status with
  | UtxoStatus.Active | UtxoStatus.Pending =>
    decide (config.refresh_interval ≤ now - e.last_updated)
  | UtxoStatus.Invalid | UtxoStatus.Spent =>
    decide (config.invalid_ttl ≤ now - e.last_updated)

/-- The cache map: 32-byte txid key to entry. -/
abbrev CacheMap : Type := List (List Nat × CacheEntry)

/-- First entry of the map with minimal last_accessed, modelling
`cache.iter().min_by_key(|(_, entry)| entry.last_accessed)` (ties go to
the earlier element, as Iterator::min_by_key does). -/
def minByLastAccessed : CacheMap → Option (List Nat × CacheEntry)
  | [] => none
  | p :: rest =>
    match minByLastAccessed rest with
    | none => some p
    | some q => if p.2.last_accessed ≤ q.2.last_accessed then some p else some q

/-- Cache update step of UtxoCache::get_utxo_status (cache.rs lines
123-134): when at or above capacity remove the entry with the oldest
last_accessed (if any), then insert the fresh entry. -/
def cache_insert_fresh (config : UtxoCacheConfig) (m : CacheMap)
    (key : List Nat) (e : CacheEntry) : CacheMap :=
  let m2 :=
    if config.max_size ≤ m.length then
      match minByLastAccessed m with
      | some oldest => mapRemove m oldest.1
      | none => m
    else m
  mapInsert m2 key e

/-- Observable outcome of one UtxoCache::get_utxo_status call: the value
returned, the cache map afterwards, and how many outbound RPC queries the
call issued. -/
structure CacheLookupResult where
  result : Except BitcoinRpcError UtxoStatus
  cache : CacheMap
  rpc_calls : Nat

/-- UtxoCache::get_utxo_status (cache.rs lines 99-136).  `rpcResult` is
what `rpc.get_utxo_status(utxo)` would return during this call; it is
consulted only on a miss or on a stale entry.  The source calls
entry.access() before the refresh check; access() touches only
last_accessed, which needs_refresh does not read, so the check is taken
on the stored entry here and the access is folded into the map update. -/
def cache_get_utxo_status (config : UtxoCacheConfig) (m : CacheMap)
    (utxo : UtxoMeta) (rpcResult : Except BitcoinRpcError UtxoStatus)
    (now : Nat) : CacheLookupResult :=
  match UtxoMeta.txid_to_bytes utxo with
  | none =>
    { result := Except.error (BitcoinRpcError.InvalidResponse "Invalid txid format"),
      cache := m, rpc_calls := 0 }
  | some key =>
    match mapLookup m key with
    | some entry =>
      let m1 := mapInsert m key { entry with last_accessed := now }
      if entry.needs_refresh config now then
        match rpcResult with
        | Except.error e => { result := Except.error e, cache := m1, rpc_calls := 1 }
        | Except.ok status =>
          { result := Except.ok status,
            cache := cache_insert_fresh config m1 key (CacheEntry.new utxo status now),
            rpc_calls := 1 }
      else
        { result := Except.ok entry.status, cache := m1, rpc_calls := 0 }
    | none =>
      match rpcResult with
      | Except.error e => { result := Except.error e, cache := m, rpc_calls := 1 }
      | Except.ok status =>
        { result := Except.ok status,
          cache := cache_insert_fresh config m key (CacheEntry.new utxo status now),
          rpc_calls := 1 }

/-- UtxoCache::handle_reorg (cache.rs lines 139-142): clear the whole map,
ignoring the height argument. -/
def cache_handle_reorg (_height : Nat) (_m : CacheMap) : CacheMap := []

/-- Removal predicate of UtxoCache::cleanup (cache.rs lines 151-154):
Spent or Invalid, and last_updated at least invalid_ttl ago. -/
def cleanup_pred (config : UtxoCacheConfig) (now : Nat) (e : CacheEntry) : Bool :=
  (e.status == UtxoStatus.Spent || e.status == UtxoStatus.Invalid)
    && decide (config.invalid_ttl ≤ now - e.last_updated)

/-- UtxoCache::cleanup (cache.rs lines 145-161): collect the keys of the
entries matching the removal predicate, then remove each. -/
def cache_cleanup (config : UtxoCacheConfig) (m : CacheMap) (now : Nat) :
    CacheMap :=
  let to_remove := (m.filter (fun p => cleanup_pred config now p.2)).map (fun p => p.1)
  to_remove.foldl (fun acc k => mapRemove acc k) m

/-- One lookup/refresh operation against the cache: the UTXO queried, the
RPC outcome available to that call, and the time of the call. -/
structure CacheOp where
  utxo : UtxoMeta
  rpcResult : Except BitcoinRpcError UtxoStatus
  now : Nat

/-- Cache map after one get_utxo_status call. -/
def cache_lookup_step (config : UtxoCacheConfig) (m : CacheMap) (op : CacheOp) :
    CacheMap :=
  (cache_get_utxo_status config m op.utxo op.rpcResult op.now).cache

/-- Cache map after a sequence of get_utxo_status calls. -/
def cache_run_lookups (config : UtxoCacheConfig) (m : CacheMap)
    (ops : List CacheOp) : CacheMap :=
  ops.foldl (cache_lookup_step config) m

/-- UtxoTracker state from src/program/src/bitcoin/utxo_tracker.rs: the
map of txid string to (UtxoMeta, UtxoStatus) and the configured minimum
confirmation count. -/
structure UtxoTracker where
  utxos : List (String × (UtxoMeta × UtxoStatus))
  min_confirmations : Nat

/-- UtxoTracker::new with an empty map. -/
def UtxoTracker.empty (min_confirmations : Nat) : UtxoTracker :=
  { utxos := [], min_confirmations := min_confirmations }

/-- UtxoTracker::add_utxo (utxo_tracker.rs lines 75-80): insert keyed by
the UTXO's txid string, overwriting any existing entry for that txid. -/
def UtxoTracker.add_utxo (t : UtxoTracker) (utxo : UtxoMeta)
    (status : UtxoStatus) : UtxoTracker :=
  { t with utxos := mapInsert t.utxos utxo.txid (utxo, status) }

/-- UtxoTracker::get_utxo_status (utxo_tracker.rs lines 82-85): point
lookup by txid. -/
def UtxoTracker.get_utxo_status (t : UtxoTracker) (txid : String) :
    Option UtxoStatus :=
  (mapLookup t.utxos txid).map (fun p => p.2)

/-- UtxoTracker::mark_utxo_spent (utxo_tracker.rs lines 87-93): force the
status to Spent when the entry exists, no-op otherwise. -/
def UtxoTracker.mark_utxo_spent (t : UtxoTracker) (txid : String) :
    UtxoTracker :=
  match mapLookup t.utxos txid with
  | some (utxo, _) => { t with utxos := mapInsert t.utxos txid (utxo, UtxoStatus.Spent) }
  | none => t

/-- UtxoTracker::get_all_utxos (utxo_tracker.rs lines 49-52): the map's
values. -/
def UtxoTracker.get_all_utxos (t : UtxoTracker) : List (UtxoMeta × UtxoStatus) :=
  t.utxos.map (fun p => p.2)

/-- UtxoTracker::get_utxos_by_status (utxo_tracker.rs lines 55-61): values
filtered to the given status, keeping the metadata. -/
def UtxoTracker.get_utxos_by_status (t : UtxoTracker) (status : UtxoStatus) :
    List UtxoMeta :=
  ((t.utxos.map (fun p => p.2)).filter (fun v => v.2 == status)).map (fun v => v.1)

/-- UtxoTracker::get_total_value_by_status (utxo_tracker.rs lines 64-70):
sum of amount_sats over the values with the given status. -/
def UtxoTracker.get_total_value_by_status (t : UtxoTracker)
    (status : UtxoStatus) : Nat :=
  (((t.utxos.map (fun p => p.2)).filter (fun v => v.2 == status)).map
    (fun v => v.1.amount_sats)).sum

/-- Per-txid update of the confirmation sweep (utxo_tracker.rs lines
109-127): on a successful fetch store the count in the record and promote
Pending to Active when the count reaches the minimum; on a fetch failure
leave the map unchanged. -/
def update_confirmations_step (min_confirmations : Nat)
    (fetch : String → Except BitcoinRpcError Nat)
    (m : List (String × (UtxoMeta × UtxoStatus))) (txid : String) :
    List (String × (UtxoMeta × UtxoStatus)) :=
  match fetch txid with
  | Except.error _ => m
  | Except.ok confirmations =>
    match mapLookup m txid with
    | none => m
    | some (utxo, status) =>
      let utxo2 := { utxo with confirmations := confirmations }
      let status2 :=
        if status = UtxoStatus.Pending ∧ min_confirmations ≤ confirmations then
          UtxoStatus.Active
        else status
      mapInsert m txid (utxo2, status2)

/-- Fold of update_confirmations_step over the snapshot of txids. -/
def update_confirmations_apply (min_confirmations : Nat)
    (fetch : String → Except BitcoinRpcError Nat)
    (m : List (String × (UtxoMeta × UtxoStatus))) :
    List String → List (String × (UtxoMeta × UtxoStatus))
  | [] => m
  | txid :: rest =>
    update_confirmations_apply min_confirmations fetch
      (update_confirmations_step min_confirmations fetch m txid) rest

/-- UtxoTracker::update_confirmations (utxo_tracker.rs lines 95-129):
snapshot the txids whose status is Pending, then run the per-txid update
for each; `fetch txid` is what rpc_client.get_confirmations(txid) returns
during the sweep. -/
def UtxoTracker.update_confirmations (t : UtxoTracker)
    (fetch : String → Except BitcoinRpcError Nat) : UtxoTracker :=
  let snapshot := (t.utxos.filter (fun p => p.2.2 == UtxoStatus.Pending)).map
    (fun p => p.1)
  { t with utxos := update_confirmations_apply t.min_confirmations fetch t.utxos snapshot }

/-- Per-entry update of the reorg sweep (utxo_tracker.rs lines 147-165):
recompute the status via the RPC client (a failed re-check counts as
Invalid) and overwrite the stored status when the fresh status is not
Active. -/
def handle_chain_reorg_step
    (statusFetch : UtxoMeta → Except BitcoinRpcError UtxoStatus)
    (m : List (String × (UtxoMeta × UtxoStatus)))
    (snap : String × UtxoMeta) : List (String × (UtxoMeta × UtxoStatus)) :=
  let new_status :=
    match statusFetch snap.2 with
    | Except.ok s => s
    | Except.error _ => UtxoStatus.Invalid
  if new_status ≠ UtxoStatus.Active then
    match mapLookup m snap.1 with
    | some (utxo, _) => mapInsert m snap.1 (utxo, new_status)
    | none => m
  else m

/-- Fold of handle_chain_reorg_step over the snapshot. -/
def handle_chain_reorg_apply
    (statusFetch : UtxoMeta → Except BitcoinRpcError UtxoStatus)
    (m : List (String × (UtxoMeta × UtxoStatus))) :
    List (String × UtxoMeta) → List (String × (UtxoMeta × UtxoStatus))
  | [] => m
  | snap :: rest =>
    handle_chain_reorg_apply statusFetch
      (handle_chain_reorg_step statusFetch m snap) rest

/-- UtxoTracker::handle_chain_reorg (utxo_tracker.rs lines 131-166):
snapshot the (txid, UtxoMeta) pairs whose status is Active, then run the
per-entry recheck for each; `statusFetch utxo` is what
rpc_client.get_utxo_status(&utxo) returns during the sweep. -/
def UtxoTracker.handle_chain_reorg (t : UtxoTracker)
    (statusFetch : UtxoMeta → Except BitcoinRpcError UtxoStatus) : UtxoTracker :=
  let snapshot := (t.utxos.filter (fun p => p.2.2 == UtxoStatus.Active)).map
    (fun p => (p.1, p.2.1))
  { t with utxos := handle_chain_reorg_apply statusFetch t.utxos snapshot }

/-- Concrete 64-hex-character transaction id (decodes to 32 bytes 0xaa). -/
def txidA : String :=
  "aaaaaaaaaaaaaaaaaaaaaaaaaaaaaaaaaaaaaaaaaaaaaaaaaaaaaaaaaaaaaaaa"

/-- Concrete 64-hex-character transaction id (decodes to 32 bytes 0xbb). -/
def txidB : String :=
  "bbbbbbbbbbbbbbbbbbbbbbbbbbbbbbbbbbbbbbbbbbbbbbbbbbbbbbbbbbbbbbbb"

/-- Concrete 64-hex-character transaction id (decodes to 32 bytes 0xcc). -/
def txidC : String :=
  "cccccccccccccccccccccccccccccccccccccccccccccccccccccccccccccccc"

/-- Concrete UTXO on txidA, output 0. -/
def utxoA : UtxoMeta := UtxoMeta.new txidA 0 100000

/-- Concrete UTXO on txidB, output 1. -/
def utxoB : UtxoMeta := UtxoMeta.new txidB 1 250000

/-- Concrete UTXO on txidC, output 0. -/
def utxoC : UtxoMeta := UtxoMeta.new txidC 0 50000

/-- Cache key txidA decodes to. -/
def keyA : List Nat := List.replicate 32 170

/-- Remote endpoint that reports no matching transaction for any txid on
every attempt (the other methods are never reached). -/
def remoteAbsent : RemoteRpc :=
  { getrawtransaction := fun txid _ => Except.error (BitcoinRpcError.TxNotFound txid),
    gettxconfirmations := fun _ _ => Except.ok 0,
    gettxout := fun _ _ _ => Except.ok true }

/-- Mock node that knows no transactions. -/
def nodeEmpty : MockBitcoinNode :=
  { transactions := [], utxo_set := [] }

/-- Attempt oracle whose every attempt fails with TxNotFound. -/
def execTxNotFound : Nat → Except BitcoinRpcError Nat :=
  fun _ => Except.error (BitcoinRpcError.TxNotFound txidA)

/-- Attempt oracle whose every attempt fails with AuthError. -/
def execAuthFail : Nat → Except BitcoinRpcError Nat :=
  fun _ => Except.error BitcoinRpcError.AuthError

/-- Tracker with two Pending entries, threshold 6. -/
def trackerTwoPending : UtxoTracker :=
  { utxos := [("t1", (UtxoMeta.new "t1" 0 1000, UtxoStatus.Pending)),
              ("t2", (UtxoMeta.new "t2" 0 2000, UtxoStatus.Pending))],
    min_confirmations := 6 }

/-- Confirmation oracle that fails for t1 and reports 6 confirmations for
every other txid. -/
def fetchFailT1 : String → Except BitcoinRpcError Nat :=
  fun txid => if txid = "t1" then Except.error BitcoinRpcError.Timeout else Except.ok 6

/-- Tracker with one Spent entry, threshold 6. -/
def trackerOneSpent : UtxoTracker :=
  { utxos := [("t1", (UtxoMeta.new "t1" 0 1000, UtxoStatus.Spent))],
    min_confirmations := 6 }

/-- Cache configuration with capacity 0. -/
def cfgCap0 : UtxoCacheConfig :=
  { max_size := 0, refresh_interval := 60, invalid_ttl := 3600 }

/-- Cache configuration with capacity 2. -/
def cfgCap2 : UtxoCacheConfig :=
  { max_size := 2, refresh_interval := 60, invalid_ttl := 3600 }

/-- Spent cache entry for utxoA with both timestamps 0. -/
def spentEntryA : CacheEntry :=
  { utxo := utxoA, status := UtxoStatus.Spent, last_updated := 0, last_accessed := 0 }

/-- Active cache entry for utxoB with both timestamps 0. -/
def activeEntryB : CacheEntry :=
  { utxo := utxoB, status := UtxoStatus.Active, last_updated := 0, last_accessed := 0 }

/-- Effect of one confirmation-sweep iteration on the entry it targets, as
a function of the fetch outcome and the entry's previous value
(utxo_tracker.rs lines 110-123): a failed fetch leaves the entry alone; a
successful fetch stores the count in the record and promotes Pending to
Active exactly when the count reaches the minimum. -/
def conf_step_result (min_confirmations : Nat)
    (r : Except BitcoinRpcError Nat) (o : Option (UtxoMeta × UtxoStatus)) :
    Option (UtxoMeta × UtxoStatus) :=
  match r with
  | Except.error _ => o
  | Except.ok confirmations =>
    match o with
    | none => none
    | some (utxo, status) =>
      some ({ utxo with confirmations := confirmations },
        if status = UtxoStatus.Pending ∧ min_confirmations ≤ confirmations then
          UtxoStatus.Active
        else status)

/-- Lookup after insert: the inserted key maps to the new value, other
keys are untouched. -/
theorem mapLookup_insert {K V : Type} [DecidableEq K] (m : List (K × V))
    (k j : K) (v : V) :
    mapLookup (mapInsert m k v) j = if k = j then some v else mapLookup m j := by
  induction m with
  | nil => simp [mapInsert, mapLookup]
  | cons p rest ih =>
    obtain ⟨k2, v2⟩ := p
    by_cases h1 : k2 = k
    · subst h1
      by_cases h2 : k2 = j
      · subst h2; simp [mapInsert, mapLookup]
      · simp [mapInsert, mapLookup, h2]
    · by_cases h2 : k2 = j
      · subst h2
        have : ¬ k = k2 := fun h => h1 h.symm
        simp [mapInsert, mapLookup, h1, this]
      · simp [mapInsert, mapLookup, h1, h2, ih]

/-- Inserting twice at the same key keeps only the second value. -/
theorem mapInsert_mapInsert {K V : Type} [DecidableEq K] (m : List (K × V))
    (k : K) (v1 v2 : V) :
    mapInsert (mapInsert m k v1) k v2 = mapInsert m k v2 := by
  induction m with
  | nil => simp [mapInsert]
  | cons p rest ih =>
    obtain ⟨k2, v2b⟩ := p
    by_cases h : k2 = k
    · simp [mapInsert, h]
    · simp [mapInsert, h, ih]

/-- Lookup after remove: the removed key is gone, other keys untouched. -/
theorem mapLookup_remove {K V : Type} [DecidableEq K] (m : List (K × V))
    (k j : K) :
    mapLookup (mapRemove m k) j = if j = k then none else mapLookup m j := by
  induction m with
  | nil => simp [mapRemove, mapLookup]
  | cons p rest ih =>
    obtain ⟨k2, v2⟩ := p
    by_cases h1 : k2 = k
    · subst h1
      rw [mapRemove, if_pos rfl, ih]
      by_cases h2 : j = k2
      · simp [h2]
      · have h3 : ¬ k2 = j := fun h => h2 h.symm
        simp [h2, mapLookup, h3]
    · rw [mapRemove, if_neg h1]
      by_cases h2 : k2 = j
      · subst h2
        simp [mapLookup, h1]
      · rw [mapLookup, if_neg h2, ih]
        by_cases h3 : j = k
        · simp [h3]
        · simp [h3, mapLookup, h2]

/-- Successful lookup exhibits membership. -/
theorem mapLookup_mem {K V : Type} [DecidableEq K] {m : List (K × V)}
    {k : K} {v : V} (h : mapLookup m k = some v) : (k, v) ∈ m := by
  induction m with
  | nil => simp [mapLookup] at h
  | cons p rest ih =>
    obtain ⟨k2, v2⟩ := p
    by_cases h2 : k2 = k
    · subst h2
      rw [mapLookup, if_pos rfl] at h
      rw [Option.some.injEq] at h
      subst h
      exact List.mem_cons_self _ _
    · rw [mapLookup, if_neg h2] at h
      exact List.mem_cons_of_mem _ (ih h)

/-- A key present in the key list has a successful lookup. -/
theorem mapLookup_isSome_of_mem_keys {K V : Type} [DecidableEq K]
    {m : List (K × V)} {k : K} (h : k ∈ m.map (fun p => p.1)) :
    ∃ v, mapLookup m k = some v := by
  induction m with
  | nil => simp at h
  | cons p rest ih =>
    obtain ⟨k2, v2⟩ := p
    by_cases h2 : k2 = k
    · exact ⟨v2, by rw [mapLookup, if_pos h2]⟩
    · rw [List.map_cons, List.mem_cons] at h
      rcases h with h | h
      · exact absurd h.symm h2
      · obtain ⟨v, hv⟩ := ih h
        exact ⟨v, by rw [mapLookup, if_neg h2]; exact hv⟩

/-- With duplicate-free keys, membership determines the lookup. -/
theorem mapLookup_eq_of_mem {K V : Type} [DecidableEq K]
    {m : List (K × V)} {k : K} {v : V} (hnd : keysNoDup m) (h : (k, v) ∈ m) :
    mapLookup m k = some v := by
  induction m with
  | nil => simp at h
  | cons p rest ih =>
    obtain ⟨k2, v2⟩ := p
    have hnd2 := hnd
    simp only [keysNoDup, List.map_cons, List.nodup_cons] at hnd2
    rcases List.mem_cons.mp h with h1 | h1
    · rw [Prod.mk.injEq] at h1
      obtain ⟨hk, hv⟩ := h1
      rw [mapLookup, if_pos hk.symm, hv]
    · have hk2 : ¬ k2 = k := by
        rintro rfl
        exact hnd2.1 (List.mem_map.mpr ⟨(k2, v), h1, rfl⟩)
      rw [mapLookup, if_neg hk2]
      exact ih hnd2.2 h1

/-- Insert grows the map by at most one pair. -/
theorem mapInsert_length_le {K V : Type} [DecidableEq K] (m : List (K × V))
    (k : K) (v : V) : (mapInsert m k v).length ≤ m.length + 1 := by
  induction m with
  | nil => simp [mapInsert]
  | cons p rest ih =>
    obtain ⟨k2, v2⟩ := p
    by_cases h : k2 = k
    · simp [mapInsert, h]
    · simp only [mapInsert, if_neg h, List.length_cons]
      omega

/-- Inserting at a key that is already present keeps the length. -/
theorem mapInsert_length_of_lookup {K V : Type} [DecidableEq K]
    {m : List (K × V)} {k : K} {v0 : V} (h : mapLookup m k = some v0) (v : V) :
    (mapInsert m k v).length = m.length := by
  induction m with
  | nil => simp [mapLookup] at h
  | cons p rest ih =>
    obtain ⟨k2, v2⟩ := p
    by_cases h2 : k2 = k
    · simp [mapInsert, h2]
    · rw [mapLookup, if_neg h2] at h
      simp only [mapInsert, if_neg h2, List.length_cons, ih h]

/-- Removing never grows the map. -/
theorem mapRemove_length_le {K V : Type} [DecidableEq K] (m : List (K × V))
    (k : K) : (mapRemove m k).length ≤ m.length := by
  induction m with
  | nil => simp [mapRemove]
  | cons p rest ih =>
    obtain ⟨k2, v2⟩ := p
    by_cases h1 : k2 = k
    · rw [mapRemove, if_pos h1]
      simp only [List.length_cons]
      omega
    · rw [mapRemove, if_neg h1]
      simp only [List.length_cons]
      omega

/-- Removing a present key strictly shrinks the map. -/
theorem mapRemove_length_lt {K V : Type} [DecidableEq K] {m : List (K × V)}
    {k : K} {v : V} (h : (k, v) ∈ m) :
    (mapRemove m k).length < m.length := by
  induction m with
  | nil => simp at h
  | cons p rest ih =>
    obtain ⟨k2, v2⟩ := p
    by_cases h1 : k2 = k
    · rw [mapRemove, if_pos h1]
      have := mapRemove_length_le rest k
      simp only [List.length_cons]
      omega
    · rcases List.mem_cons.mp h with h2 | h2
      · rw [Prod.mk.injEq] at h2
        exact absurd h2.1.symm h1
      · rw [mapRemove, if_neg h1]
        have := ih h2
        simp only [List.length_cons]
        omega

/-- Keys of the map after an insert come from the old keys or are the
inserted key. -/
theorem mapInsert_mem_keys {K V : Type} [DecidableEq K] {m : List (K × V)}
    {k j : K} {v : V} (h : j ∈ (mapInsert m k v).map (fun p => p.1)) :
    j = k ∨ j ∈ m.map (fun p => p.1) := by
  induction m with
  | nil =>
    rw [mapInsert, List.map_cons, List.mem_cons] at h
    rcases h with h | h
    · exact Or.inl h
    · simp at h
  | cons p rest ih =>
    obtain ⟨k2, v2⟩ := p
    by_cases h2 : k2 = k
    · rw [mapInsert, if_pos h2, List.map_cons, List.mem_cons] at h
      rcases h with h | h
      · exact Or.inr (by rw [List.map_cons, List.mem_cons]; exact Or.inl h)
      · exact Or.inr (by rw [List.map_cons, List.mem_cons]; exact Or.inr h)
    · rw [mapInsert, if_neg h2, List.map_cons, List.mem_cons] at h
      rcases h with h | h
      · exact Or.inr (by rw [List.map_cons, List.mem_cons]; exact Or.inl h)
      · rcases ih h with h3 | h3
        · exact Or.inl h3
        · exact Or.inr (by rw [List.map_cons, List.mem_cons]; exact Or.inr h3)

/-- mapInsert preserves duplicate-free keys. -/
theorem mapInsert_keysNoDup {K V : Type} [DecidableEq K] {m : List (K × V)}
    (hnd : keysNoDup m) (k : K) (v : V) : keysNoDup (mapInsert m k v) := by
  induction m with
  | nil => simp [mapInsert, keysNoDup]
  | cons p rest ih =>
    obtain ⟨k2, v2⟩ := p
    simp only [keysNoDup, List.map_cons, List.nodup_cons] at hnd
    by_cases h : k2 = k
    · subst h
      show keysNoDup (if k2 = k2 then (k2, v) :: rest else (k2, v2) :: mapInsert rest k2 v)
      rw [if_pos rfl]
      simp only [keysNoDup, List.map_cons, List.nodup_cons]
      exact hnd
    · simp only [mapInsert, if_neg h, keysNoDup, List.map_cons, List.nodup_cons]
      refine ⟨?_, ih hnd.2⟩
      intro hmem
      rcases mapInsert_mem_keys hmem with h3 | h3
      · exact h h3
      · exact hnd.1 h3

/-- A map whose minimum-last_accessed element does not exist is empty. -/
theorem minByLastAccessed_eq_none {m : CacheMap}
    (h : minByLastAccessed m = none) : m = [] := by
  cases m with
  | nil => rfl
  | cons q rest =>
    exfalso
    rw [minByLastAccessed] at h
    cases hr : minByLastAccessed rest with
    | none => simp [hr] at h
    | some r =>
      rw [hr] at h
      by_cases hle : q.2.last_accessed <= r.2.last_accessed
      · simp [hle] at h
      · simp [hle] at h

/-- A non-empty map has a minimum-last_accessed element. -/
theorem minByLastAccessed_isSome {m : CacheMap} (h : m ≠ []) :
    ∃ p, minByLastAccessed m = some p := by
  cases hm : minByLastAccessed m with
  | none => exact absurd (minByLastAccessed_eq_none hm) h
  | some p => exact ⟨p, rfl⟩

/-- The minimum-last_accessed element is a member of the map. -/
theorem minByLastAccessed_mem {m : CacheMap} {p : List Nat × CacheEntry}
    (h : minByLastAccessed m = some p) : p ∈ m := by
  induction m with
  | nil => simp [minByLastAccessed] at h
  | cons q rest ih =>
    rw [minByLastAccessed] at h
    cases hr : minByLastAccessed rest with
    | none =>
      rw [hr] at h
      simp at h
      subst h
      exact List.mem_cons_self _ _
    | some r =>
      rw [hr] at h
      by_cases hle : q.2.last_accessed ≤ r.2.last_accessed
      · simp [hle] at h
        subst h
        exact List.mem_cons_self _ _
      · simp [hle] at h
        subst h
        exact List.mem_cons_of_mem _ (ih hr)

/-- The minimum-last_accessed element is minimal among all entries. -/
theorem minByLastAccessed_le {m : CacheMap} {p : List Nat × CacheEntry}
    (h : minByLastAccessed m = some p) :
    ∀ q ∈ m, p.2.last_accessed ≤ q.2.last_accessed := by
  induction m generalizing p with
  | nil => simp [minByLastAccessed] at h
  | cons q0 rest ih =>
    intro q hq
    rw [minByLastAccessed] at h
    cases hr : minByLastAccessed rest with
    | none =>
      have hrest : rest = [] := minByLastAccessed_eq_none hr
      subst hrest
      rw [hr] at h
      simp at h
      subst h
      rcases List.mem_cons.mp hq with h2 | h2
      · rw [h2]
      · simp at h2
    | some r =>
      rw [hr] at h
      by_cases hle : q0.2.last_accessed ≤ r.2.last_accessed
      · simp [hle] at h
        subst h
        rcases List.mem_cons.mp hq with h2 | h2
        · rw [h2]
        · exact le_trans hle (ih hr q h2)
      · simp [hle] at h
        subst h
        rcases List.mem_cons.mp hq with h2 | h2
        · rw [h2]; omega
        · exact ih hr q h2

/-- Attempt count of the retry loop never exceeds the remaining budget. -/
theorem rpc_retry_go_attempts_le {R : Type} (exec : Nat → Except BitcoinRpcError R)
    (retries fuel : Nat) : (rpc_retry_go exec retries fuel).attempts ≤ fuel := by
  induction fuel generalizing retries with
  | zero => simp [rpc_retry_go]
  | succ n ih =>
    rw [rpc_retry_go]
    cases hx : exec retries with
    | ok v => exact Nat.succ_le_succ (Nat.zero_le n)
    | error e =>
      by_cases h : retries = MAX_RETRIES - 1
      · subst h
        exact Nat.succ_le_succ (Nat.zero_le n)
      · dsimp only
        rw [if_neg h]
        have := ih (retries + 1)
        dsimp only
        omega

/-- The retry loop with positive budget makes at least one attempt. -/
theorem rpc_retry_go_attempts_pos {R : Type} (exec : Nat → Except BitcoinRpcError R)
    (retries fuel : Nat) : 1 ≤ (rpc_retry_go exec retries (fuel + 1)).attempts := by
  rw [rpc_retry_go]
  cases hx : exec retries with
  | ok v => exact le_refl 1
  | error e =>
    by_cases h : retries = MAX_RETRIES - 1
    · subst h
      exact le_refl 1
    · dsimp only
      rw [if_neg h]
      dsimp only
      omega

/-- Every sleep of the retry loop is RETRY_DELAY_MS long, with exactly one
sleep between consecutive attempts (none after the last), provided the
loop was entered with the make_rpc_call budget accounting
retries + fuel = MAX_RETRIES. -/
theorem rpc_retry_go_sleeps {R : Type} (exec : Nat → Except BitcoinRpcError R)
    (retries fuel : Nat) (hsum : retries + fuel = MAX_RETRIES) :
    (rpc_retry_go exec retries fuel).sleeps_ms =
      List.replicate ((rpc_retry_go exec retries fuel).attempts - 1) RETRY_DELAY_MS := by
  induction fuel generalizing retries with
  | zero => simp [rpc_retry_go]
  | succ n ih =>
    rw [rpc_retry_go]
    cases hx : exec retries with
    | ok v => rfl
    | error e =>
      by_cases h : retries = MAX_RETRIES - 1
      · subst h
        rfl
      · dsimp only
        rw [if_neg h]
        dsimp only
        cases n with
        | zero =>
          exfalso
          rw [MAX_RETRIES] at hsum h
          omega
        | succ n2 =>
          have hsum2 : (retries + 1) + (n2 + 1) = MAX_RETRIES := by omega
          have hpos := rpc_retry_go_attempts_pos exec (retries + 1) n2
          have heq : (rpc_retry_go exec (retries + 1) (n2 + 1)).attempts =
              ((rpc_retry_go exec (retries + 1) (n2 + 1)).attempts - 1) + 1 := by
            omega
          rw [Nat.add_sub_cancel, ih (retries + 1) hsum2]
          conv_rhs => rw [heq, List.replicate_succ]

/-- The sleeps of a full make_rpc_call are (attempts - 1) copies of
RETRY_DELAY_MS. -/
theorem make_rpc_call_sleeps {R : Type} (exec : Nat → Except BitcoinRpcError R) :
    (make_rpc_call exec).sleeps_ms =
      List.replicate ((make_rpc_call exec).attempts - 1) RETRY_DELAY_MS :=
  rpc_retry_go_sleeps exec 0 MAX_RETRIES rfl

/-- When all three attempts fail, make_rpc_call runs exactly three
attempts, sleeps twice for RETRY_DELAY_MS, and returns the error of the
last attempt — whatever the kinds of the three errors. -/
theorem make_rpc_call_all_fail {R : Type} (exec : Nat → Except BitcoinRpcError R)
    (e0 e1 e2 : BitcoinRpcError)
    (h0 : exec 0 = Except.error e0) (h1 : exec 1 = Except.error e1)
    (h2 : exec 2 = Except.error e2) :
    make_rpc_call exec =
      { result := Except.error e2, attempts := 3,
        sleeps_ms := [RETRY_DELAY_MS, RETRY_DELAY_MS] } := by
  have s2 : rpc_retry_go exec 2 1 =
      { result := Except.error e2, attempts := 1, sleeps_ms := [] } := by
    rw [rpc_retry_go, h2]
    rfl
  have s1 : rpc_retry_go exec 1 2 =
      { result := (rpc_retry_go exec 2 1).result,
        attempts := (rpc_retry_go exec 2 1).attempts + 1,
        sleeps_ms := RETRY_DELAY_MS :: (rpc_retry_go exec 2 1).sleeps_ms } := by
    rw [rpc_retry_go, h1]
    rfl
  have s0 : make_rpc_call exec =
      { result := (rpc_retry_go exec 1 2).result,
        attempts := (rpc_retry_go exec 1 2).attempts + 1,
        sleeps_ms := RETRY_DELAY_MS :: (rpc_retry_go exec 1 2).sleeps_ms } := by
    rw [make_rpc_call, MAX_RETRIES, rpc_retry_go, h0]
    rfl
  rw [s0, s1, s2]

/-- A confirmation-sweep step at one txid leaves every other key's entry
unchanged. -/
theorem update_confirmations_step_other (mc : Nat)
    (fetch : String → Except BitcoinRpcError Nat)
    (m : List (String × (UtxoMeta × UtxoStatus))) (txid j : String)
    (h : txid ≠ j) :
    mapLookup (update_confirmations_step mc fetch m txid) j = mapLookup m j := by
  unfold update_confirmations_step
  cases fetch txid with
  | error e => rfl
  | ok c =>
    cases hl : mapLookup m txid with
    | none => rfl
    | some p =>
      obtain ⟨u, s⟩ := p
      dsimp only
      rw [mapLookup_insert, if_neg h]

/-- A confirmation-sweep step at a txid rewrites that txid's entry
according to conf_step_result. -/
theorem update_confirmations_step_self (mc : Nat)
    (fetch : String → Except BitcoinRpcError Nat)
    (m : List (String × (UtxoMeta × UtxoStatus))) (txid : String) :
    mapLookup (update_confirmations_step mc fetch m txid) txid =
      conf_step_result mc (fetch txid) (mapLookup m txid) := by
  unfold update_confirmations_step conf_step_result
  cases fetch txid with
  | error e => rfl
  | ok c =>
    cases hl : mapLookup m txid with
    | none =>
      dsimp only
      exact hl
    | some p =>
      obtain ⟨u, s⟩ := p
      dsimp only
      rw [mapLookup_insert, if_pos rfl]

/-- The confirmation sweep does not touch keys outside its snapshot. -/
theorem update_confirmations_apply_notmem (mc : Nat)
    (fetch : String → Except BitcoinRpcError Nat) :
    ∀ (txids : List String) (m : List (String × (UtxoMeta × UtxoStatus)))
      (j : String), j ∉ txids →
      mapLookup (update_confirmations_apply mc fetch m txids) j = mapLookup m j := by
  intro txids
  induction txids with
  | nil => intro m j _; rfl
  | cons t rest ih =>
    intro m j h
    have h1 : j ∉ rest := fun hx => h (List.mem_cons_of_mem _ hx)
    have h2 : t ≠ j := by rintro rfl; exact h (List.mem_cons_self _ _)
    rw [update_confirmations_apply, ih _ _ h1,
        update_confirmations_step_other _ _ _ _ _ h2]

/-- For a txid occurring in a duplicate-free snapshot, the confirmation
sweep rewrites its entry exactly once, according to conf_step_result. -/
theorem update_confirmations_apply_mem (mc : Nat)
    (fetch : String → Except BitcoinRpcError Nat) :
    ∀ (txids : List String), txids.Nodup →
      ∀ (j : String), j ∈ txids →
      ∀ (m : List (String × (UtxoMeta × UtxoStatus))),
      mapLookup (update_confirmations_apply mc fetch m txids) j =
        conf_step_result mc (fetch j) (mapLookup m j) := by
  intro txids
  induction txids with
  | nil => intro _ j hj; simp at hj
  | cons t rest ih =>
    intro hnd j hj m
    rw [update_confirmations_apply]
    rcases List.mem_cons.mp hj with h | h
    · subst h
      have hrest : j ∉ rest := (List.nodup_cons.mp hnd).1
      rw [update_confirmations_apply_notmem _ _ _ _ _ hrest,
          update_confirmations_step_self]
    · have ht : t ≠ j := by rintro rfl; exact (List.nodup_cons.mp hnd).1 h
      rw [ih (List.nodup_cons.mp hnd).2 j h,
          update_confirmations_step_other _ _ _ _ _ ht]

/-- A reorg-sweep step at one snapshot entry leaves every other key's
entry unchanged. -/
theorem handle_chain_reorg_step_other
    (statusFetch : UtxoMeta → Except BitcoinRpcError UtxoStatus)
    (m : List (String × (UtxoMeta × UtxoStatus)))
    (snap : String × UtxoMeta) (j : String) (h : snap.1 ≠ j) :
    mapLookup (handle_chain_reorg_step statusFetch m snap) j = mapLookup m j := by
  unfold handle_chain_reorg_step
  by_cases hs : (match statusFetch snap.2 with
      | Except.ok s => s
      | Except.error _ => UtxoStatus.Invalid) ≠ UtxoStatus.Active
  · rw [if_pos hs]
    cases hl : mapLookup m snap.1 with
    | none => rfl
    | some p =>
      obtain ⟨u, s⟩ := p
      dsimp only
      rw [mapLookup_insert, if_neg h]
  · rw [if_neg hs]

/-- The reorg sweep does not touch keys outside its snapshot. -/
theorem handle_chain_reorg_apply_notmem
    (statusFetch : UtxoMeta → Except BitcoinRpcError UtxoStatus) :
    ∀ (snaps : List (String × UtxoMeta))
      (m : List (String × (UtxoMeta × UtxoStatus))) (j : String),
      j ∉ snaps.map (fun s => s.1) →
      mapLookup (handle_chain_reorg_apply statusFetch m snaps) j = mapLookup m j := by
  intro snaps
  induction snaps with
  | nil => intro m j _; rfl
  | cons s0 rest ih =>
    intro m j h
    rw [List.map_cons] at h
    have h1 : j ∉ rest.map (fun s => s.1) := fun hx => h (List.mem_cons_of_mem _ hx)
    have h2 : s0.1 ≠ j := by
      intro hx
      exact h (by rw [hx]; exact List.mem_cons_self _ _)
    rw [handle_chain_reorg_apply, ih _ _ h1,
        handle_chain_reorg_step_other _ _ _ _ h2]

/-- Folding mapRemove over a key list removes exactly those keys. -/
theorem mapLookup_foldl_remove {K V : Type} [DecidableEq K] :
    ∀ (ks : List K) (m : List (K × V)) (k : K),
      mapLookup (ks.foldl (fun acc kk => mapRemove acc kk) m) k =
        if k ∈ ks then none else mapLookup m k := by
  intro ks
  induction ks with
  | nil => intro m k; simp
  | cons k0 rest ih =>
    intro m k
    rw [List.foldl_cons, ih]
    by_cases h1 : k ∈ rest
    · simp [h1]
    · by_cases h2 : k = k0
      · simp [h1, h2, mapLookup_remove]
      · simp [h1, h2, mapLookup_remove]

/-- Lookup after cleanup: an entry survives exactly when it fails the
removal predicate; removed keys vanish; nothing else changes. -/
theorem cache_cleanup_lookup (config : UtxoCacheConfig) (m : CacheMap)
    (now : Nat) (hnd : keysNoDup m) (k : List Nat) :
    mapLookup (cache_cleanup config m now) k =
      match mapLookup m k with
      | none => none
      | some e => if cleanup_pred config now e then none else some e := by
  unfold cache_cleanup
  rw [mapLookup_foldl_remove]
  cases hl : mapLookup m k with
  | none =>
    dsimp only
    rw [if_neg]
    intro hk
    rcases List.mem_map.mp hk with ⟨p, hp, hp1⟩
    have hpm := (List.mem_filter.mp hp).1
    obtain ⟨v, hv⟩ := mapLookup_isSome_of_mem_keys
      (List.mem_map.mpr ⟨p, hpm, hp1⟩)
    rw [hl] at hv
    cases hv
  | some e =>
    dsimp only
    by_cases hpred : cleanup_pred config now e = true
    · rw [if_pos hpred, if_pos]
      exact List.mem_map.mpr ⟨(k, e), List.mem_filter.mpr ⟨mapLookup_mem hl, hpred⟩, rfl⟩
    · rw [if_neg hpred, if_neg]
      intro hk
      rcases List.mem_map.mp hk with ⟨p, hp, hp1⟩
      obtain ⟨p1, p2⟩ := p
      dsimp only at hp1
      subst hp1
      have hm := List.mem_filter.mp hp
      have hlk : mapLookup m p1 = some p2 := mapLookup_eq_of_mem hnd hm.1
      rw [hl] at hlk
      rw [Option.some.injEq] at hlk
      subst hlk
      exact hpred hm.2

/-- With a positive capacity, the insert step of the cache never pushes
the map above capacity. -/
theorem cache_insert_fresh_length (config : UtxoCacheConfig) (m : CacheMap)
    (key : List Nat) (e : CacheEntry) (hcap : 1 ≤ config.max_size)
    (hm : m.length ≤ config.max_size) :
    (cache_insert_fresh config m key e).length ≤ config.max_size := by
  unfold cache_insert_fresh
  by_cases h : config.max_size ≤ m.length
  · rw [if_pos h]
    have hne : m ≠ [] := by
      intro hx
      rw [hx] at h
      simp at h
      omega
    obtain ⟨p, hp⟩ := minByLastAccessed_isSome hne
    rw [hp]
    dsimp only
    have hmem : p ∈ m := minByLastAccessed_mem hp
    have hmem2 : (p.1, p.2) ∈ m := by
      rw [Prod.mk.eta]
      exact hmem
    have hrem : (mapRemove m p.1).length < m.length := mapRemove_length_lt hmem2
    have hins := mapInsert_length_le (mapRemove m p.1) key e
    omega
  · rw [if_neg h]
    dsimp only
    have hins := mapInsert_length_le m key e
    omega

/-- With a positive capacity, one get_utxo_status call never pushes the
cache above capacity. -/
theorem cache_lookup_step_length (config : UtxoCacheConfig) (m : CacheMap)
    (op : CacheOp) (hcap : 1 ≤ config.max_size)
    (hm : m.length ≤ config.max_size) :
    (cache_lookup_step config m op).length ≤ config.max_size := by
  unfold cache_lookup_step cache_get_utxo_status
  cases htb : UtxoMeta.txid_to_bytes op.utxo with
  | none =>
    dsimp only
    exact hm
  | some key =>
    dsimp only
    cases hl : mapLookup m key with
    | none =>
      dsimp only
      cases op.rpcResult with
      | error e =>
        dsimp only
        exact hm
      | ok status =>
        dsimp only
        exact cache_insert_fresh_length config m key _ hcap hm
    | some entry =>
      dsimp only
      have hm1 : (mapInsert m key { entry with last_accessed := op.now }).length
          = m.length := mapInsert_length_of_lookup hl _
      by_cases hr : entry.needs_refresh config op.now = true
      · rw [if_pos hr]
        cases op.rpcResult with
        | error e =>
          dsimp only
          omega
        | ok status =>
          dsimp only
          refine cache_insert_fresh_length config _ key _ hcap ?_
          omega
      · rw [if_neg hr]
        dsimp only
        omega

/-- With a positive capacity, no sequence of get_utxo_status calls pushes
the cache above capacity. -/
theorem cache_run_lookups_length (config : UtxoCacheConfig)
    (ops : List CacheOp) (m : CacheMap) (hcap : 1 ≤ config.max_size)
    (hm : m.length ≤ config.max_size) :
    (cache_run_lookups config m ops).length ≤ config.max_size := by
  induction ops generalizing m with
  | nil => exact hm
  | cons op rest ih =>
    rw [cache_run_lookups, List.foldl_cons]
    exact ih _ (cache_lookup_step_length config m op hcap hm)

/-- C4: every ChainClient query is attempted at most 3 times in total,
with a fixed 1000 ms (1 second) sleep between consecutive attempts and
none after the last; the budget applies uniformly to every failure kind —
the errors below are arbitrary, AuthError included — and when every
attempt fails, the error returned to the caller is the last attempt's. -/
theorem c4_retry_budget {R : Type} (exec : Nat → Except BitcoinRpcError R) :
    (make_rpc_call exec).attempts ≤ 3 ∧
    (make_rpc_call exec).sleeps_ms =
      List.replicate ((make_rpc_call exec).attempts - 1) 1000 ∧
    (∀ e0 e1 e2 : BitcoinRpcError,
      exec 0 = Except.error e0 → exec 1 = Except.error e1 →
      exec 2 = Except.error e2 →
      (make_rpc_call exec).result = Except.error e2 ∧
      (make_rpc_call exec).attempts = 3) := by
  refine ⟨rpc_retry_go_attempts_le exec 0 MAX_RETRIES, make_rpc_call_sleeps exec, ?_⟩
  intro e0 e1 e2 h0 h1 h2
  rw [make_rpc_call_all_fail exec e0 e1 e2 h0 h1 h2]
  exact ⟨rfl, rfl⟩

/-- Witness for c4_retry_budget at the constant-AuthError oracle. -/
theorem c4_retry_budget_witness :
    (make_rpc_call execAuthFail).result = Except.error BitcoinRpcError.AuthError ∧
    (make_rpc_call execAuthFail).attempts = 3 ∧
    (make_rpc_call execAuthFail).sleeps_ms = [1000, 1000] :=
  ⟨((c4_retry_budget execAuthFail).2.2 BitcoinRpcError.AuthError
      BitcoinRpcError.AuthError BitcoinRpcError.AuthError rfl rfl rfl).1,
   ((c4_retry_budget execAuthFail).2.2 BitcoinRpcError.AuthError
      BitcoinRpcError.AuthError BitcoinRpcError.AuthError rfl rfl rfl).2,
   rfl⟩

/-- C5 counterexample: a query whose every attempt fails with TxNotFound
(domain absence) is retried to the full budget — three attempts with two
inter-attempt sleeps — instead of propagating right after the first
attempt as the claim states. -/
theorem c5_counterexample :
    (make_rpc_call execTxNotFound).attempts = 3 ∧
    (make_rpc_call execTxNotFound).attempts ≠ 1 ∧
    (make_rpc_call execTxNotFound).sleeps_ms = [1000, 1000] := by
  refine ⟨rfl, ?_, rfl⟩
  intro h
  rw [show (make_rpc_call execTxNotFound).attempts = 3 from rfl] at h
  cases h

/-- C5 amended: every failure kind surfaced by the RPC transport —
TxNotFound included — consumes the full retry budget (three attempts,
last error returned); only malformed-input identity encoding is never
retried, because the cache's get_utxo_status fails on it before issuing
any outbound RPC call, leaving the cache unchanged. -/
theorem c5_amended_uniform_retry :
    (∀ (exec : Nat → Except BitcoinRpcError Nat) (t0 t1 t2 : String),
      exec 0 = Except.error (BitcoinRpcError.TxNotFound t0) →
      exec 1 = Except.error (BitcoinRpcError.TxNotFound t1) →
      exec 2 = Except.error (BitcoinRpcError.TxNotFound t2) →
      (make_rpc_call exec).attempts = 3 ∧
      (make_rpc_call exec).result =
        Except.error (BitcoinRpcError.TxNotFound t2)) ∧
    (∀ (config : UtxoCacheConfig) (m : CacheMap) (utxo : UtxoMeta)
      (rpcResult : Except BitcoinRpcError UtxoStatus) (now : Nat),
      UtxoMeta.txid_to_bytes utxo = none →
      cache_get_utxo_status config m utxo rpcResult now =
        { result := Except.error
            (BitcoinRpcError.InvalidResponse "Invalid txid format"),
          cache := m, rpc_calls := 0 }) := by
  constructor
  · intro exec t0 t1 t2 h0 h1 h2
    rw [make_rpc_call_all_fail exec _ _ _ h0 h1 h2]
    exact ⟨rfl, rfl⟩
  · intro config m utxo rpcResult now htb
    unfold cache_get_utxo_status
    rw [htb]

/-- Witness for c5_amended_uniform_retry: the TxNotFound oracle uses the
whole budget; a non-hex txid fails with zero RPC calls. -/
theorem c5_amended_witness :
    (make_rpc_call execTxNotFound).attempts = 3 ∧
    cache_get_utxo_status cfgCap2 [] (UtxoMeta.new "zz" 0 5)
        (Except.ok UtxoStatus.Active) 0 =
      { result := Except.error
          (BitcoinRpcError.InvalidResponse "Invalid txid format"),
        cache := [], rpc_calls := 0 } :=
  ⟨(c5_amended_uniform_retry.1 execTxNotFound txidA txidA txidA rfl rfl rfl).1,
   c5_amended_uniform_retry.2 cfgCap2 [] (UtxoMeta.new "zz" 0 5)
     (Except.ok UtxoStatus.Active) 0 rfl⟩

/-- C1 counterexample: against a remote that reports no transaction for
any txid, BitcoinRpcClient::get_utxo_status fails with the propagated
lookup error — it does not return the Invalid status. -/
theorem c1_counterexample :
    rpc_get_utxo_status remoteAbsent utxoA =
      Except.error (BitcoinRpcError.TxNotFound txidA) ∧
    rpc_get_utxo_status remoteAbsent utxoA ≠ Except.ok UtxoStatus.Invalid := by
  constructor
  · rfl
  · intro h
    rw [show rpc_get_utxo_status remoteAbsent utxoA =
        Except.error (BitcoinRpcError.TxNotFound txidA) from rfl] at h
    cases h

/-- C1 amended: when the remote reports no matching transaction (every
getrawtransaction attempt fails), BitcoinRpcClient's get_utxo_status
propagates the last lookup error to the caller instead of returning a
status; the repository's MockBitcoinRpcClient is the client that returns
Invalid for a transaction its node does not know. -/
theorem c1_amended_missing_tx :
    (∀ (r : RemoteRpc) (utxo : UtxoMeta) (e : BitcoinRpcError),
      (∀ i : Nat, r.getrawtransaction utxo.txid i = Except.error e) →
      rpc_get_utxo_status r utxo = Except.error e) ∧
    (∀ (node : MockBitcoinNode) (utxo : UtxoMeta),
      mapLookup node.transactions utxo.txid = none →
      mock_get_utxo_status node utxo = Except.ok UtxoStatus.Invalid) := by
  constructor
  · intro r utxo e hfail
    unfold rpc_get_utxo_status rpc_get_transaction
    rw [make_rpc_call_all_fail _ e e e (hfail 0) (hfail 1) (hfail 2)]
  · intro node utxo hl
    unfold mock_get_utxo_status
    rw [hl]

/-- Witness for c1_amended_missing_tx on a concrete absent txid. -/
theorem c1_amended_witness :
    rpc_get_utxo_status remoteAbsent utxoB =
      Except.error (BitcoinRpcError.TxNotFound txidB) ∧
    mock_get_utxo_status nodeEmpty utxoB = Except.ok UtxoStatus.Invalid :=
  ⟨c1_amended_missing_tx.1 remoteAbsent utxoB
      (BitcoinRpcError.TxNotFound txidB) (fun _ => rfl),
   c1_amended_missing_tx.2 nodeEmpty utxoB rfl⟩

/-- C2 counterexample: two UTXOs sharing a txid but differing in output
index collapse to a single tracker entry — add_utxo keys by txid alone,
so the second insertion overwrites the first instead of creating the
distinct entry the claim requires. -/
theorem c2_counterexample :
    ((((UtxoTracker.empty 6).add_utxo (UtxoMeta.new "aa" 0 100)
        UtxoStatus.Active).add_utxo (UtxoMeta.new "aa" 1 200)
        UtxoStatus.Active).utxos).length = 1 ∧
    mapLookup (((UtxoTracker.empty 6).add_utxo (UtxoMeta.new "aa" 0 100)
        UtxoStatus.Active).add_utxo (UtxoMeta.new "aa" 1 200)
        UtxoStatus.Active).utxos "aa" =
      some (UtxoMeta.new "aa" 1 200, UtxoStatus.Active) :=
  ⟨rfl, rfl⟩

/-- C2 amended: the tracker map is keyed by the txid string alone and the
cache key is a function of the txid alone, so per txid at most one entry
exists in either map (add_utxo preserves duplicate-free keys); a UTXO
with the same txid but a different output index does not get a second
entry — it overwrites the first, and it produces the same cache key. -/
theorem c2_amended_txid_key (t : UtxoTracker) (u1 u2 : UtxoMeta)
    (s1 s2 : UtxoStatus) (h : u1.txid = u2.txid) (hnd : keysNoDup t.utxos) :
    ((t.add_utxo u1 s1).add_utxo u2 s2).utxos = (t.add_utxo u2 s2).utxos ∧
    keysNoDup (t.add_utxo u1 s1).utxos ∧
    UtxoMeta.txid_to_bytes u1 = UtxoMeta.txid_to_bytes u2 := by
  refine ⟨?_, ?_, ?_⟩
  · unfold UtxoTracker.add_utxo
    dsimp only
    rw [h, mapInsert_mapInsert]
  · exact mapInsert_keysNoDup hnd _ _
  · unfold UtxoMeta.txid_to_bytes
    rw [h]

/-- Witness for c2_amended_txid_key on two same-txid UTXOs. -/
theorem c2_amended_witness :
    (((UtxoTracker.empty 6).add_utxo (UtxoMeta.new "aa" 0 100)
        UtxoStatus.Pending).add_utxo (UtxoMeta.new "aa" 1 200)
        UtxoStatus.Pending).utxos =
      ((UtxoTracker.empty 6).add_utxo (UtxoMeta.new "aa" 1 200)
        UtxoStatus.Pending).utxos ∧
    keysNoDup ((UtxoTracker.empty 6).add_utxo (UtxoMeta.new "aa" 0 100)
        UtxoStatus.Pending).utxos :=
  ⟨(c2_amended_txid_key (UtxoTracker.empty 6) (UtxoMeta.new "aa" 0 100)
      (UtxoMeta.new "aa" 1 200) UtxoStatus.Pending UtxoStatus.Pending rfl
      (by simp [UtxoTracker.empty, keysNoDup])).1,
   (c2_amended_txid_key (UtxoTracker.empty 6) (UtxoMeta.new "aa" 0 100)
      (UtxoMeta.new "aa" 1 200) UtxoStatus.Pending UtxoStatus.Pending rfl
      (by simp [UtxoTracker.empty, keysNoDup])).2.1⟩

/-- C10: the tracker's aggregate queries agree — get_total_value_by_status
sums amount_sats over exactly the UTXOs get_utxos_by_status returns, and
get_utxos_by_status is the status-filter of get_all_utxos. -/
theorem c10_aggregates_consistent (t : UtxoTracker) (status : UtxoStatus) :
    t.get_total_value_by_status status =
      ((t.get_utxos_by_status status).map (fun u => u.amount_sats)).sum ∧
    t.get_utxos_by_status status =
      (t.get_all_utxos.filter (fun v => v.2 == status)).map (fun v => v.1) := by
  unfold UtxoTracker.get_total_value_by_status UtxoTracker.get_utxos_by_status
    UtxoTracker.get_all_utxos
  constructor
  · rw [List.map_map]
    rfl
  · rfl

/-- Removing an absent key is a no-op. -/
theorem mapRemove_not_mem_keys {K V : Type} [DecidableEq K]
    {m : List (K × V)} {k : K} (h : k ∉ m.map (fun p => p.1)) :
    mapRemove m k = m := by
  induction m with
  | nil => rfl
  | cons p rest ih =>
    obtain ⟨k2, v2⟩ := p
    rw [List.map_cons, List.mem_cons] at h
    have h1 : k2 ≠ k := fun hx => h (Or.inl hx.symm)
    have h2 : k ∉ rest.map (fun p => p.1) := fun hx => h (Or.inr hx)
    rw [mapRemove, if_neg h1, ih h2]

/-- With duplicate-free keys, removing a present key deletes exactly one
pair. -/
theorem mapRemove_length_nodup {K V : Type} [DecidableEq K]
    {m : List (K × V)} {k : K} {v : V} (hnd : keysNoDup m) (h : (k, v) ∈ m) :
    (mapRemove m k).length + 1 = m.length := by
  induction m with
  | nil => simp at h
  | cons p rest ih =>
    obtain ⟨k2, v2⟩ := p
    simp only [keysNoDup, List.map_cons, List.nodup_cons] at hnd
    rcases List.mem_cons.mp h with h1 | h1
    · rw [Prod.mk.injEq] at h1
      obtain ⟨hk, _⟩ := h1
      subst hk
      rw [mapRemove, if_pos rfl, mapRemove_not_mem_keys hnd.1]
      rfl
    · have hk2 : k2 ≠ k := by
        rintro rfl
        exact hnd.1 (List.mem_map.mpr ⟨(k2, v), h1, rfl⟩)
      rw [mapRemove, if_neg hk2, List.length_cons, List.length_cons,
          ih hnd.2 h1]

/-- Bridge between the Bool removal predicate of cleanup and its
propositional reading. -/
theorem cleanup_pred_iff (config : UtxoCacheConfig) (now : Nat)
    (e : CacheEntry) :
    cleanup_pred config now e = true ↔
      ((e.status = UtxoStatus.Spent ∨ e.status = UtxoStatus.Invalid) ∧
        config.invalid_ttl ≤ now - e.last_updated) := by
  unfold cleanup_pred
  rw [Bool.and_eq_true, Bool.or_eq_true]
  simp [beq_iff_eq, decide_eq_true_eq]

/-- A Spent entry never needs the short-interval refresh: its refresh is
governed by the invalid TTL alone. -/
theorem needs_refresh_spent_false (config : UtxoCacheConfig)
    (e : CacheEntry) (now : Nat) (hs : e.status = UtxoStatus.Spent)
    (hlt : now - e.last_updated < config.invalid_ttl) :
    e.needs_refresh config now = false := by
  unfold CacheEntry.needs_refresh
  rw [hs]
  simp only [decide_eq_false_iff_not]
  omega

/-- C7: update_confirmations promotes a Pending entry to Active exactly
when its fetched confirmation count reaches the tracker's minimum; below
the minimum the entry stays Pending with its stored confirmation count
updated to the fetched value; and a failed fetch leaves the entry's
record and status unchanged.  The conclusion depends only on this entry's
own fetch outcome, so failures on other entries never disturb it — the
sweep continues over the remaining entries. -/
theorem c7_update_confirmations_promotion (t : UtxoTracker)
    (fetch : String → Except BitcoinRpcError Nat) (txid : String)
    (u : UtxoMeta) (hnd : keysNoDup t.utxos)
    (hp : mapLookup t.utxos txid = some (u, UtxoStatus.Pending)) :
    mapLookup (t.update_confirmations fetch).utxos txid =
      match fetch txid with
      | Except.ok c =>
        some ({ u with confirmations := c },
          if t.min_confirmations ≤ c then UtxoStatus.Active
          else UtxoStatus.Pending)
      | Except.error _ => some (u, UtxoStatus.Pending) := by
  unfold UtxoTracker.update_confirmations
  dsimp only
  have hmem : (txid, (u, UtxoStatus.Pending)) ∈ t.utxos := mapLookup_mem hp
  have hsnap_mem : txid ∈ (t.utxos.filter
      (fun p => p.2.2 == UtxoStatus.Pending)).map (fun p => p.1) := by
    refine List.mem_map.mpr ⟨(txid, (u, UtxoStatus.Pending)), ?_, rfl⟩
    refine List.mem_filter.mpr ⟨hmem, ?_⟩
    simp
  have hsnap_nd : ((t.utxos.filter
      (fun p => p.2.2 == UtxoStatus.Pending)).map (fun p => p.1)).Nodup := by
    have hsub : ((t.utxos.filter (fun p => p.2.2 == UtxoStatus.Pending)).map
        (fun p => p.1)).Sublist (t.utxos.map (fun p => p.1)) :=
      (List.filter_sublist _).map _
    exact hnd.sublist hsub
  rw [update_confirmations_apply_mem _ _ _ hsnap_nd txid hsnap_mem t.utxos]
  unfold conf_step_result
  rw [hp]
  cases fetch txid with
  | error e => rfl
  | ok c =>
    dsimp only
    by_cases hc : t.min_confirmations ≤ c
    · rw [if_pos ⟨rfl, hc⟩, if_pos hc]
    · rw [if_neg (fun hx => hc hx.2), if_neg hc]

/-- Witness for c7_update_confirmations_promotion: with the fetch failing
on t1 and reporting 6 confirmations elsewhere, t2 is promoted to Active
(threshold 6) and t1 is left Pending and unchanged. -/
theorem c7_witness :
    mapLookup ((trackerTwoPending.update_confirmations fetchFailT1).utxos) "t2" =
      some ({ UtxoMeta.new "t2" 0 2000 with confirmations := 6 },
        UtxoStatus.Active) ∧
    mapLookup ((trackerTwoPending.update_confirmations fetchFailT1).utxos) "t1" =
      some (UtxoMeta.new "t1" 0 1000, UtxoStatus.Pending) := by
  constructor
  · have h := c7_update_confirmations_promotion trackerTwoPending fetchFailT1
      "t2" (UtxoMeta.new "t2" 0 2000)
      (by unfold keysNoDup trackerTwoPending; decide) rfl
    rw [h]
    rfl
  · have h := c7_update_confirmations_promotion trackerTwoPending fetchFailT1
      "t1" (UtxoMeta.new "t1" 0 1000)
      (by unfold keysNoDup trackerTwoPending; decide) rfl
    rw [h]
    rfl

/-- C8: cleanup removes an entry iff its status is Spent or Invalid and at
least invalid_ttl has elapsed since last_updated; every surviving entry —
in particular every Active or Pending entry, regardless of age — is
returned exactly as it was.  The timestamp hypothesis delimits the
panic-free domain of SystemTime::duration_since in the source. -/
theorem c8_cleanup_iff (config : UtxoCacheConfig) (m : CacheMap) (now : Nat)
    (hnd : keysNoDup m) (htime : ∀ p ∈ m, p.2.last_updated ≤ now)
    (k : List Nat) (e : CacheEntry) (hl : mapLookup m k = some e) :
    (mapLookup (cache_cleanup config m now) k = none ↔
      ((e.status = UtxoStatus.Spent ∨ e.status = UtxoStatus.Invalid) ∧
        config.invalid_ttl ≤ now - e.last_updated)) ∧
    (mapLookup (cache_cleanup config m now) k = none ∨
      mapLookup (cache_cleanup config m now) k = some e) := by
  have hc := cache_cleanup_lookup config m now hnd k
  rw [hl] at hc
  dsimp only at hc
  by_cases hpred : cleanup_pred config now e = true
  · rw [if_pos hpred] at hc
    rw [hc]
    exact ⟨⟨fun _ => (cleanup_pred_iff config now e).mp hpred, fun _ => rfl⟩,
      Or.inl rfl⟩
  · rw [if_neg hpred] at hc
    rw [hc]
    constructor
    · constructor
      · intro hx
        cases hx
      · intro hx
        exact absurd ((cleanup_pred_iff config now e).mpr hx) hpred
    · exact Or.inr rfl

/-- Witness for c8_cleanup_iff: at time 3600 with TTL 3600, the stale
Spent entry is removed and the equally old Active entry survives
untouched. -/
theorem c8_cleanup_witness :
    mapLookup (cache_cleanup cfgCap2
      [([1], spentEntryA), ([2], activeEntryB)] 3600) [1] = none ∧
    mapLookup (cache_cleanup cfgCap2
      [([1], spentEntryA), ([2], activeEntryB)] 3600) [2] =
      some activeEntryB := by
  have h1 := c8_cleanup_iff cfgCap2 [([1], spentEntryA), ([2], activeEntryB)]
    3600 (by unfold keysNoDup; decide) (by decide) [1] spentEntryA rfl
  have h2 := c8_cleanup_iff cfgCap2 [([1], spentEntryA), ([2], activeEntryB)]
    3600 (by unfold keysNoDup; decide) (by decide) [2] activeEntryB rfl
  constructor
  · exact h1.1.mpr ⟨Or.inl rfl, by decide⟩
  · rcases h2.2 with hx | hx
    · exfalso
      have hbad := h2.1.mp hx
      rcases hbad.1 with hs | hs
      · exact absurd hs (by decide)
      · exact absurd hs (by decide)
    · exact hx

/-- C9: when a cached entry exists and needs refresh and the outbound RPC
query fails, the error is returned to the caller and the cache is
unchanged except for that entry's last_accessed timestamp: the stale
entry keeps its record, status and last_updated, exactly one RPC call was
made, the map's size is unchanged (nothing inserted, nothing evicted),
and every other key's entry is untouched. -/
theorem c9_refresh_failure_keeps_entry (config : UtxoCacheConfig)
    (m : CacheMap) (utxo : UtxoMeta) (key : List Nat) (entry : CacheEntry)
    (err : BitcoinRpcError) (now : Nat)
    (htb : UtxoMeta.txid_to_bytes utxo = some key)
    (hl : mapLookup m key = some entry)
    (hr : entry.needs_refresh config now = true) :
    cache_get_utxo_status config m utxo (Except.error err) now =
      { result := Except.error err,
        cache := mapInsert m key { entry with last_accessed := now },
        rpc_calls := 1 } ∧
    (cache_get_utxo_status config m utxo (Except.error err) now).cache.length
      = m.length ∧
    (∀ j : List Nat, j ≠ key →
      mapLookup (cache_get_utxo_status config m utxo (Except.error err) now).cache j
        = mapLookup m j) := by
  have hmain : cache_get_utxo_status config m utxo (Except.error err) now =
      { result := Except.error err,
        cache := mapInsert m key { entry with last_accessed := now },
        rpc_calls := 1 } := by
    unfold cache_get_utxo_status
    rw [htb]
    dsimp only
    rw [hl]
    dsimp only
    rw [if_pos hr]
  refine ⟨hmain, ?_, ?_⟩
  · rw [hmain]
    exact mapInsert_length_of_lookup hl _
  · intro j hj
    rw [hmain]
    dsimp only
    rw [mapLookup_insert, if_neg (fun hx => hj hx.symm)]

/-- Witness for c9_refresh_failure_keeps_entry: a stale Spent entry, a
timed-out refresh — the error surfaces and only last_accessed moves. -/
theorem c9_witness :
    cache_get_utxo_status cfgCap2 [(keyA, spentEntryA)] utxoA
        (Except.error BitcoinRpcError.Timeout) 3600 =
      { result := Except.error BitcoinRpcError.Timeout,
        cache := [(keyA, { spentEntryA with last_accessed := 3600 })],
        rpc_calls := 1 } := by
  have h := (c9_refresh_failure_keeps_entry cfgCap2 [(keyA, spentEntryA)]
    utxoA keyA spentEntryA BitcoinRpcError.Timeout 3600 (by decide) (by decide)
    (by decide)).1
  rw [h]
  rfl

/-- C6 counterexample: with configured capacity 0 the cache still holds
one entry after a single insertion — the eviction pass finds nothing to
remove in the empty map and the insert proceeds — so the
never-more-than-N bound fails at N = 0. -/
theorem c6_counterexample :
    (cache_run_lookups cfgCap0 []
      [{ utxo := utxoA, rpcResult := Except.ok UtxoStatus.Active,
         now := 1 }]).length = 1 ∧
    ¬ ((cache_run_lookups cfgCap0 []
      [{ utxo := utxoA, rpcResult := Except.ok UtxoStatus.Active,
         now := 1 }]).length ≤ cfgCap0.max_size) := by
  decide

/-- C6 amended (capacity at least 1): starting from an empty cache, after
any sequence of get_utxo_status calls the cache holds at most max_size
entries; and whenever the fresh-insert step runs with the map at or
beyond capacity, the evicted entry is the first one with the minimal
last_accessed timestamp — with duplicate-free keys exactly one pair is
removed — and the final map is the insert over that removal. -/
theorem c6_amended_capacity_bound (config : UtxoCacheConfig)
    (hcap : 1 ≤ config.max_size) :
    (∀ ops : List CacheOp,
      (cache_run_lookups config [] ops).length ≤ config.max_size) ∧
    (∀ (m : CacheMap) (key : List Nat) (e : CacheEntry),
      config.max_size ≤ m.length →
      ∃ victim : List Nat × CacheEntry,
        minByLastAccessed m = some victim ∧ victim ∈ m ∧
        (∀ q ∈ m, victim.2.last_accessed ≤ q.2.last_accessed) ∧
        cache_insert_fresh config m key e =
          mapInsert (mapRemove m victim.1) key e ∧
        (keysNoDup m → (mapRemove m victim.1).length + 1 = m.length)) := by
  constructor
  · intro ops
    exact cache_run_lookups_length config ops [] hcap (by simp)
  · intro m key e hfull
    have hne : m ≠ [] := by
      intro hx
      rw [hx] at hfull
      simp at hfull
      omega
    obtain ⟨p, hp⟩ := minByLastAccessed_isSome hne
    have hmem : p ∈ m := minByLastAccessed_mem hp
    have hmem2 : (p.1, p.2) ∈ m := by
      rw [Prod.mk.eta]
      exact hmem
    refine ⟨p, hp, hmem, minByLastAccessed_le hp, ?_, ?_⟩
    · unfold cache_insert_fresh
      rw [if_pos hfull, hp]
    · intro hnd
      exact mapRemove_length_nodup hnd hmem2

/-- Witness for c6_amended_capacity_bound: capacity 2, three distinct
inserts — the cache ends at two entries; and a concrete at-capacity map
evicts its minimal-last_accessed victim. -/
theorem c6_amended_witness :
    (cache_run_lookups cfgCap2 []
      [{ utxo := utxoA, rpcResult := Except.ok UtxoStatus.Active, now := 1 },
       { utxo := utxoB, rpcResult := Except.ok UtxoStatus.Active, now := 2 },
       { utxo := utxoC, rpcResult := Except.ok UtxoStatus.Active,
         now := 3 }]).length ≤ cfgCap2.max_size ∧
    ∃ victim : List Nat × CacheEntry,
      minByLastAccessed [([1], spentEntryA), ([2], activeEntryB)] = some victim ∧
      victim ∈ [([1], spentEntryA), ([2], activeEntryB)] ∧
      (∀ q ∈ [([1], spentEntryA), ([2], activeEntryB)],
        victim.2.last_accessed ≤ q.2.last_accessed) ∧
      cache_insert_fresh cfgCap2 [([1], spentEntryA), ([2], activeEntryB)]
          keyA (CacheEntry.new utxoA UtxoStatus.Active 9) =
        mapInsert (mapRemove [([1], spentEntryA), ([2], activeEntryB)] victim.1)
          keyA (CacheEntry.new utxoA UtxoStatus.Active 9) ∧
      (keysNoDup [([1], spentEntryA), ([2], activeEntryB)] →
        (mapRemove [([1], spentEntryA), ([2], activeEntryB)] victim.1).length + 1
          = 2) :=
  ⟨(c6_amended_capacity_bound cfgCap2 (by decide)).1 _,
   (c6_amended_capacity_bound cfgCap2 (by decide)).2
     [([1], spentEntryA), ([2], activeEntryB)] keyA
     (CacheEntry.new utxoA UtxoStatus.Active 9) (by decide)⟩

/-- C3 counterexample: an automatic cache refresh moves a Spent entry
back to Active: with the invalid TTL elapsed, get_utxo_status overwrites
the stored Spent status with whatever status the remote reports — no
explicit re-addition involved. -/
theorem c3_counterexample :
    (mapLookup [(keyA, spentEntryA)] keyA).map (fun e => e.status) =
      some UtxoStatus.Spent ∧
    (mapLookup (cache_get_utxo_status UtxoCacheConfig.default
        [(keyA, spentEntryA)] utxoA (Except.ok UtxoStatus.Active) 3600).cache
      keyA).map (fun e => e.status) = some UtxoStatus.Active := by
  decide

/-- C3 amended: a Spent entry is never changed by the tracker's automatic
sweeps — the confirmation sweep snapshots only Pending entries and the
reorg sweep only Active entries, so a Spent entry's record and status
survive both unchanged — and the cache returns and retains Spent
unchanged for as long as the invalid TTL has not elapsed.  Once that TTL
has elapsed, however, a cache refresh overwrites the stored status with
whatever the remote reports (the counterexample flips Spent back to
Active this way); within the tracker itself only explicit operations
(add_utxo, mark_utxo_spent) change a Spent entry. -/
theorem c3_amended_spent_stability :
    (∀ (t : UtxoTracker) (fetch : String → Except BitcoinRpcError Nat)
       (txid : String) (u : UtxoMeta), keysNoDup t.utxos →
      mapLookup t.utxos txid = some (u, UtxoStatus.Spent) →
      mapLookup (t.update_confirmations fetch).utxos txid =
        some (u, UtxoStatus.Spent)) ∧
    (∀ (t : UtxoTracker)
       (statusFetch : UtxoMeta → Except BitcoinRpcError UtxoStatus)
       (txid : String) (u : UtxoMeta), keysNoDup t.utxos →
      mapLookup t.utxos txid = some (u, UtxoStatus.Spent) →
      mapLookup (t.handle_chain_reorg statusFetch).utxos txid =
        some (u, UtxoStatus.Spent)) ∧
    (∀ (config : UtxoCacheConfig) (m : CacheMap) (utxo : UtxoMeta)
       (key : List Nat) (entry : CacheEntry)
       (rpcResult : Except BitcoinRpcError UtxoStatus) (now : Nat),
      UtxoMeta.txid_to_bytes utxo = some key →
      mapLookup m key = some entry →
      entry.status = UtxoStatus.Spent →
      now - entry.last_updated < config.invalid_ttl →
      (cache_get_utxo_status config m utxo rpcResult now).result =
        Except.ok UtxoStatus.Spent ∧
      mapLookup (cache_get_utxo_status config m utxo rpcResult now).cache key
        = some { entry with last_accessed := now }) := by
  refine ⟨?_, ?_, ?_⟩
  · intro t fetch txid u hnd hp
    unfold UtxoTracker.update_confirmations
    dsimp only
    have hnotmem : txid ∉ (t.utxos.filter
        (fun p => p.2.2 == UtxoStatus.Pending)).map (fun p => p.1) := by
      intro hmem
      rcases List.mem_map.mp hmem with ⟨p, hpf, hp1⟩
      have hf := List.mem_filter.mp hpf
      obtain ⟨p1, p2⟩ := p
      dsimp only at hp1
      subst hp1
      have hpend : p2.2 = UtxoStatus.Pending := by simpa using hf.2
      have hlk := mapLookup_eq_of_mem hnd hf.1
      rw [hp, Option.some.injEq] at hlk
      rw [← hlk] at hpend
      simp at hpend
    rw [update_confirmations_apply_notmem t.min_confirmations fetch _
      t.utxos txid hnotmem]
    exact hp
  · intro t statusFetch txid u hnd hp
    unfold UtxoTracker.handle_chain_reorg
    dsimp only
    have hnotmem : txid ∉ ((t.utxos.filter
        (fun p => p.2.2 == UtxoStatus.Active)).map
          (fun p => (p.1, p.2.1))).map (fun s => s.1) := by
      intro hmem
      rcases List.mem_map.mp hmem with ⟨s, hsm, hs1⟩
      rcases List.mem_map.mp hsm with ⟨p, hpf, hp2⟩
      have hf := List.mem_filter.mp hpf
      obtain ⟨p1, p2⟩ := p
      rw [← hp2] at hs1
      dsimp only at hs1
      subst hs1
      have hact : p2.2 = UtxoStatus.Active := by simpa using hf.2
      have hlk := mapLookup_eq_of_mem hnd hf.1
      rw [hp, Option.some.injEq] at hlk
      rw [← hlk] at hact
      simp at hact
    rw [handle_chain_reorg_apply_notmem statusFetch _ t.utxos txid hnotmem]
    exact hp
  · intro config m utxo key entry rpcResult now htb hl hs hlt
    have hr : entry.needs_refresh config now = false :=
      needs_refresh_spent_false config entry now hs hlt
    have hmain : cache_get_utxo_status config m utxo rpcResult now =
        { result := Except.ok entry.status,
          cache := mapInsert m key { entry with last_accessed := now },
          rpc_calls := 0 } := by
      unfold cache_get_utxo_status
      rw [htb]
      dsimp only
      rw [hl]
      dsimp only
      rw [hr, if_neg Bool.false_ne_true]
    constructor
    · rw [hmain, hs]
    · rw [hmain]
      dsimp only
      rw [mapLookup_insert, if_pos rfl]

/-- Witness for c3_amended_spent_stability: a Spent tracker entry survives
a confirmation sweep, and a Spent cache entry inside its TTL is served
and retained as Spent even though the remote would report Active. -/
theorem c3_amended_witness :
    mapLookup ((trackerOneSpent.update_confirmations fetchFailT1).utxos) "t1" =
      some (UtxoMeta.new "t1" 0 1000, UtxoStatus.Spent) ∧
    (cache_get_utxo_status cfgCap2 [(keyA, spentEntryA)] utxoA
        (Except.ok UtxoStatus.Active) 100).result = Except.ok UtxoStatus.Spent ∧
    mapLookup (cache_get_utxo_status cfgCap2 [(keyA, spentEntryA)] utxoA
        (Except.ok UtxoStatus.Active) 100).cache keyA =
      some { spentEntryA with last_accessed := 100 } :=
  ⟨c3_amended_spent_stability.1 trackerOneSpent fetchFailT1 "t1"
      (UtxoMeta.new "t1" 0 1000) (by unfold keysNoDup trackerOneSpent; decide) rfl,
   (c3_amended_spent_stability.2.2 cfgCap2 [(keyA, spentEntryA)] utxoA keyA
      spentEntryA (Except.ok UtxoStatus.Active) 100 (by decide) (by decide)
      (by decide) (by decide)).1,
   (c3_amended_spent_stability.2.2 cfgCap2 [(keyA, spentEntryA)] utxoA keyA
      spentEntryA (Except.ok UtxoStatus.Active) 100 (by decide) (by decide)
      (by decide) (by decide)).2⟩
